import Mathlib

/-!
Verification of the drogulus sealed-message protocol engine against its
natural-language specification.

The repository slice contains the black-box integration-test driver
(`src/integration_tests/run.py`); the node implementation it exercises is not
part of the slice.  The driver's own helpers (`seal_message` and the message
construction in each test) are embedded directly from the source.  The node
side (canonical codec, seal engine, key derivation, local store, routing
table, request router and lookup tracker) is modelled from the specification,
with the RSA primitive abstracted as an ideal signature: a signature value
records the canonical encoding that was signed together with the public key
matching the signing private key, and verification succeeds exactly when the
recomputed canonical encoding and the expected public key both match.

Dictionaries (Python `dict` values) are embedded as association lists with
the first binding of a key authoritative; `dictSet` mirrors Python item
assignment (overwrite in place if the key exists, append otherwise).
-/

/-- Association-list lookup: the first binding of a key wins, as in a Python
dict in which every key occurs at most once. -/
def lookupD {α : Type} : List (String × α) → String → Option α
  | [], _ => none
  | p :: ps, key => if key = p.1 then some p.2 else lookupD ps key

/-- Keys of an association list, in order. -/
def keysD {α : Type} (d : List (String × α)) : List String :=
  d.map Prod.fst

/-- In-place mutation of the value stored at an existing key, leaving every
other binding untouched. -/
def setFieldD {α : Type} (d : List (String × α)) (k : String) (v : α) :
    List (String × α) :=
  d.map (fun p => if p.1 = k then (k, v) else p)

/-- Python item assignment `d[k] = v`: overwrite the binding in place when the
key is present, append a new binding otherwise. -/
def dictSet {α : Type} (d : List (String × α)) (k : String) (v : α) :
    List (String × α) :=
  if (lookupD d k).isSome then setFieldD d k v else d ++ [(k, v)]

/-- Removal of every binding of a key. -/
def removeKeyD {α : Type} : List (String × α) → String → List (String × α)
  | [], _ => []
  | p :: ps, k => if p.1 = k then removeKeyD ps k else p :: removeKeyD ps k

/-- Single step of insertion sort on the key order used by the canonical
codec. -/
def insertSortedD {α : Type} (p : String × α) :
    List (String × α) → List (String × α)
  | [] => [p]
  | q :: qs =>
    if compare p.1 q.1 = Ordering.gt then q :: insertSortedD p qs
    else p :: q :: qs

/-- Deterministic key-ordering sort of an association list. -/
def sortD {α : Type} : List (String × α) → List (String × α)
  | [] => []
  | p :: ps => insertSortedD p (sortD ps)

/-- Modelled from the spec: the Canonical Codec (drogulus.dht.crypto, absent
from the slice).  `encode` is deterministic for a given set of bindings and
excludes any field named `seal`; the byte string is abstracted as the sorted
binding list itself. -/
def encodeD {α : Type} (d : List (String × α)) : List (String × α) :=
  sortD (removeKeyD d "seal")

/-- Distinctness of the keys of an association list. -/
def keysNodup {α : Type} (d : List (String × α)) : Prop :=
  (keysD d).Nodup

instance {α : Type} (d : List (String × α)) : Decidable (keysNodup d) := by
  unfold keysNodup; infer_instance

/-- Primitive JSON values appearing inside a signed item (string, int,
float); floats are embedded as rationals with explicit type tags, so an int
and a float of equal magnitude are distinct values, as distinct canonical
encodings must be. -/
inductive PVal : Type where
  | pstr : String → PVal
  | pint : Int → PVal
  | pnum : Rat → PVal
deriving DecidableEq

/-- Item-level dictionary: the five fields covered by a SignedItem's
signature. -/
abbrev PDict : Type := List (String × PVal)

/-- Peer descriptor serialized in a `nodes` reply. -/
structure Peer : Type where
  public_key : String
  address : String
deriving DecidableEq

/-- Modelled from the spec: an ideal public-key signature (the rsa dependency
of drogulus.dht.crypto is absent from the slice).  A signature value records
the canonical encoding that was signed together with the public key matching
the signing private key; this realizes exactly the spec's contract that
verification recomputes the canonical encoding and fails closed on any
change of content or key. -/
structure SigOf (α : Type) : Type where
  enc : List (String × α)
  signer : String
deriving DecidableEq

/-- Public key derived from (and uniquely matching) a private key. -/
def pubOf (private_key : String) : String :=
  "PUB:" ++ private_key

/-- Modelled from the spec: `seal(fields, private_key)` signs the canonical
encoding of the fields. -/
def signD {α : Type} (d : List (String × α)) (private_key : String) :
    SigOf α :=
  ⟨encodeD d, pubOf private_key⟩

/-- Modelled from the spec: `verify(fields, signature, public_key)`
recomputes the canonical encoding and checks the signature; it returns false
on any mismatch rather than raising. -/
def verifyD {α : Type} [DecidableEq α] (d : List (String × α)) (s : SigOf α)
    (public_key : String) : Bool :=
  decide (s.enc = encodeD d) && decide (s.signer = public_key)

/-- Signature over the primitive fields of a signed item. -/
abbrev PSig : Type := SigOf PVal

/-- Envelope-level JSON values: primitives, an embedded item signature, or a
serialized peer list. -/
inductive Val : Type where
  | vstr : String → Val
  | vint : Int → Val
  | vnum : Rat → Val
  | vsig : PSig → Val
  | vnodes : List Peer → Val
deriving DecidableEq

/-- Envelope-level dictionary. -/
abbrev Dict : Type := List (String × Val)

/-- Envelope-level seal. -/
abbrev Seal : Type := SigOf Val

/-- Embedding of a primitive value into the envelope level. -/
def Val.ofP : PVal → Val
  | PVal.pstr s => Val.vstr s
  | PVal.pint n => Val.vint n
  | PVal.pnum q => Val.vnum q

/-- Partial projection back to a primitive value. -/
def Val.toP : Val → Option PVal
  | Val.vstr s => some (PVal.pstr s)
  | Val.vint n => some (PVal.pint n)
  | Val.vnum q => some (PVal.pnum q)
  | _ => none

/-- Modelled from the spec: `get_seal` of drogulus.dht.crypto. -/
def get_seal (msg_dict : Dict) (private_key : String) : Seal :=
  signD msg_dict private_key

/-- Modelled from the spec: `check_seal`-style verification of a seal over a
dictionary of fields against a public key. -/
def check_seal (fields : Dict) (s : Seal) (public_key : String) : Bool :=
  verifyD fields s public_key

/-- Wire unit: the envelope dictionary together with its seal.  The Python
driver stores the seal inside the dict under the key `seal`; since the
canonical codec excludes that key, the pair (fields-without-seal, seal) is an
exact representation of the wire dict. -/
structure SealedMsg : Type where
  fields : Dict
  msgSeal : Seal
deriving DecidableEq

/-- Embedded from src/integration_tests/run.py, `seal_message`: the seal is
computed over `msg_dict` first, then the `message` key is added (Python item
assignment on the same dict), so the seal covers every field present before
the call but not the `message` field. -/
def seal_message (msg_type : String) (msg_dict : Dict) (private_key : String) :
    SealedMsg :=
  ⟨dictSet msg_dict "message" (Val.vstr msg_type), get_seal msg_dict private_key⟩

/-- Modelled from the spec: `construct_key(public_key, name)` of
drogulus.dht.crypto (absent from the slice) — a deterministic one-way hash of
the owner public key and the item name; the 512-bit hash is abstracted as an
injective tagged concatenation. -/
def construct_key (public_key name : String) : String :=
  "KEY:" ++ public_key ++ "/" ++ name

/-- Canonical item-level dictionary covered by a SignedItem's signature:
exactly the fields name, value, timestamp, expires and created_with. -/
def itemFieldsPD (name : String) (value : PVal) (ts ex : Rat) (ver : String) :
    PDict :=
  [("name", PVal.pstr name), ("value", value), ("timestamp", PVal.pnum ts),
    ("expires", PVal.pnum ex), ("created_with", PVal.pstr ver)]

/-- SignedItem of the spec's data model. -/
structure SignedItem : Type where
  name : String
  value : PVal
  public_key : String
  signature : PSig
  timestamp : Rat
  expires : Rat
  created_with : String
deriving DecidableEq

/-- Modelled from the spec: `get_signed_item` of drogulus.dht.crypto (absent
from the slice) — stamps the current timestamp, `expires = 0`, the protocol
version, and signs the canonical encoding of the five item fields. -/
def get_signed_item (name : String) (value : PVal)
    (public_key private_key : String) (now : Rat) (ver : String) :
    SignedItem :=
  ⟨name, value, public_key,
    signD (itemFieldsPD name value now 0 ver) private_key, now, 0, ver⟩

/-- Modelled from the spec: `validate_signed_item` — recomputes the canonical
item dictionary, checks the signature under the item's own public key, and
requires `expires` to be zero or in the future. -/
def validate_signed_item (now : Rat) (i : SignedItem) : Bool :=
  verifyD (itemFieldsPD i.name i.value i.timestamp i.expires i.created_with)
      i.signature i.public_key
    && (decide (i.expires = 0) || decide (now < i.expires))

/-- Serialization of a SignedItem's fields into an envelope dictionary, as
the driver sends them and as a `value` reply carries them. -/
def itemValDict (i : SignedItem) : Dict :=
  [("name", Val.vstr i.name), ("value", Val.ofP i.value),
    ("public_key", Val.vstr i.public_key),
    ("signature", Val.vsig i.signature),
    ("timestamp", Val.vnum i.timestamp), ("expires", Val.vnum i.expires),
    ("created_with", Val.vstr i.created_with)]

/-- Extraction of the SignedItem fields from a store envelope. -/
def parseItem (d : Dict) : Option SignedItem :=
  match lookupD d "name", lookupD d "value", lookupD d "public_key",
      lookupD d "signature", lookupD d "timestamp", lookupD d "expires",
      lookupD d "created_with" with
  | some (Val.vstr n), some v, some (Val.vstr pk), some (Val.vsig sg),
      some (Val.vnum ts), some (Val.vnum ex), some (Val.vstr cw) =>
    match Val.toP v with
    | some pv => some ⟨n, pv, pk, sg, ts, ex, cw⟩
    | none => none
  | _, _, _, _, _, _, _ => none

/-- Shared envelope header fields required of every request. -/
structure Header : Type where
  uuid : String
  sender : String
  recipient : String
  reply_port : Int
  version : String
  msgType : String
deriving DecidableEq

/-- Validation and extraction of the required envelope fields; a request
missing any of them (or carrying one with the wrong shape) is rejected
before dispatch. -/
def parseHeader (d : Dict) : Option Header :=
  match lookupD d "uuid", lookupD d "sender", lookupD d "recipient",
      lookupD d "reply_port", lookupD d "version", lookupD d "message" with
  | some (Val.vstr u), some (Val.vstr s), some (Val.vstr r),
      some (Val.vint p), some (Val.vstr v), some (Val.vstr m) =>
    some ⟨u, s, r, p, v, m⟩
  | _, _, _, _, _, _ => none

/-- Modelled from the spec: the node's mutable context — its own key pair,
listening port, protocol version, Local Store and Routing Table. -/
structure NodeState : Type where
  private_key : String
  port : Int
  version : String
  store : List (String × SignedItem)
  routing : List Peer
deriving DecidableEq

/-- Peer descriptor of the answering node itself. -/
def selfPeer (node : NodeState) : Peer :=
  ⟨pubOf node.private_key, "localhost:" ++ toString node.port⟩

/-- Numeric value of a lowercase hex digit. -/
def hexDigitVal (c : Char) : Nat :=
  if c.toNat ≤ 57 then c.toNat - 48 else c.toNat - 87

/-- Modelled from the spec: Kademlia-style XOR distance between two
hex-digit strings, most significant digit first. -/
def xorDistance (a b : String) : Nat :=
  (a.data.zip b.data).foldl
    (fun acc pc => acc * 16 + (hexDigitVal pc.1 ^^^ hexDigitVal pc.2)) 0

/-- Stable insertion of a peer into a list sorted by XOR distance to a key;
ties keep the earlier-inserted peer first. -/
def insertByDistance (key : String) (p : Peer) : List Peer → List Peer
  | [] => [p]
  | q :: qs =>
    if xorDistance key q.public_key ≤ xorDistance key p.public_key then
      q :: insertByDistance key p qs
    else p :: q :: qs

/-- Sort of the routing table by ascending XOR distance to a key. -/
def sortByDistance (key : String) : List Peer → List Peer
  | [] => []
  | p :: ps => insertByDistance key p (sortByDistance key ps)

/-- Kademlia bucket size used for `nearest`. -/
def kBucketSize : Nat := 20

/-- Modelled from the spec: `Routing Table.nearest(key, n)` — the known peers
sorted by XOR distance to the key; the answering node includes itself when
the table is otherwise empty, guaranteeing a non-empty result in a
single-node deployment. -/
def nearest (node : NodeState) (key : String) (n : Nat) : List Peer :=
  if node.routing.isEmpty then [selfPeer node]
  else (sortByDistance key node.routing).take n

/-- Modelled from the spec: `Local Store.put` — accepted only if the key is
free, or the existing item has the same public key and a strictly older
timestamp; `none` signals a stale or unauthorized write. -/
def storePut (s : List (String × SignedItem)) (key : String)
    (it : SignedItem) : Option (List (String × SignedItem)) :=
  match lookupD s key with
  | none => some (dictSet s key it)
  | some old =>
    if old.public_key = it.public_key ∧ old.timestamp < it.timestamp then
      some (dictSet s key it)
    else none

/-- Modelled from the spec: `Local Store.get` — an expired item (non-zero
`expires` in the past) is treated as absent. -/
def storeGet (now : Rat) (s : List (String × SignedItem)) (key : String) :
    Option SignedItem :=
  match lookupD s key with
  | some it => if it.expires = 0 ∨ now < it.expires then some it else none
  | none => none

/-- Header part of a reply's field dictionary: the request's `uuid` echoed,
`sender`/`recipient` swapped, and the node's own `reply_port` and
`version`. -/
def replyBase (node : NodeState) (h : Header) : Dict :=
  [("uuid", Val.vstr h.uuid), ("sender", Val.vstr (pubOf node.private_key)),
    ("recipient", Val.vstr h.sender), ("reply_port", Val.vint node.port),
    ("version", Val.vstr node.version)]

/-- Modelled from the spec: construction of a sealed reply — the reply
echoes the request's `uuid`, swaps `sender`/`recipient`, carries the node's
own `reply_port` and `version`, and is sealed with the node's private key
the same way the driver seals requests. -/
def mkReply (node : NodeState) (h : Header) (msg_type : String)
    (extra : Dict) : SealedMsg :=
  seal_message msg_type (replyBase node h ++ extra) node.private_key

/-- Sealed `error` reply carrying a detail field. -/
def errorReply (node : NodeState) (h : Header) (detail : String) :
    SealedMsg :=
  mkReply node h "error" [("error", Val.vstr detail)]

/-- Type-specific fields of a `value` reply: all SignedItem fields plus
`key` and `public_key`. -/
def valueReplyExtra (key : String) (i : SignedItem) : Dict :=
  [("name", Val.vstr i.name), ("value", Val.ofP i.value),
    ("key", Val.vstr key), ("public_key", Val.vstr i.public_key),
    ("signature", Val.vsig i.signature), ("expires", Val.vnum i.expires),
    ("created_with", Val.vstr i.created_with),
    ("timestamp", Val.vnum i.timestamp)]

/-- Node context with its Local Store replaced. -/
def withStore (node : NodeState) (s : List (String × SignedItem)) :
    NodeState :=
  { node with store := s }

/-- Store dispatch tail: accepted writes update the store and reply `ok`;
stale or unauthorized writes leave the store unchanged and reply `error`. -/
def storeStep (node : NodeState) (h : Header) (it : SignedItem) :
    NodeState × SealedMsg :=
  match storePut node.store (construct_key it.public_key it.name) it with
  | some s => (withStore node s, mkReply node h "ok" [])
  | none => (node, errorReply node h "StaleOrUnauthorizedWrite")

/-- Findvalue dispatch tail: a locally resolved key replies `value` with all
SignedItem fields; otherwise the reply falls back to `findnode` behavior. -/
def findvalueStep (node : NodeState) (now : Rat) (h : Header)
    (key : String) : NodeState × SealedMsg :=
  match storeGet now node.store key with
  | some it => (node, mkReply node h "value" (valueReplyExtra key it))
  | none =>
    (node, mkReply node h "nodes"
      [("nodes", Val.vnodes (nearest node key kBucketSize))])

/-- Seal verification as the node applies it to wire messages: over the
canonical encoding of the envelope fields excluding `seal` and `message`.
The exclusion of `message` is forced by the driver under
src/integration_tests/run.py, whose `seal_message` computes the seal before
the `message` key is added and whose tests assert that the node accepts the
result. -/
def wireSealOk (m : SealedMsg) (public_key : String) : Bool :=
  check_seal (removeKeyD m.fields "message") m.msgSeal public_key

/-- Seal verification as the spec's envelope invariant literally states it:
over all fields other than `seal` itself, including `message`. -/
def sealCoversAll (m : SealedMsg) (public_key : String) : Bool :=
  check_seal m.fields m.msgSeal public_key

/-- Dispatch of a request whose header has been validated. -/
def handleChecked (node : NodeState) (now : Rat) (d : Dict) (h : Header) :
    NodeState × SealedMsg :=
  if h.msgType = "store" then
    match parseItem d with
    | some it =>
      if validate_signed_item now it then storeStep node h it
      else (node, errorReply node h "InvalidSignedItem")
    | none => (node, errorReply node h "MalformedEnvelope")
  else if h.msgType = "findnode" then
    match lookupD d "key" with
    | some (Val.vstr key) =>
      (node, mkReply node h "nodes"
        [("nodes", Val.vnodes (nearest node key kBucketSize))])
    | _ => (node, errorReply node h "MalformedEnvelope")
  else if h.msgType = "findvalue" then
    match lookupD d "key" with
    | some (Val.vstr key) => findvalueStep node now h key
    | _ => (node, errorReply node h "MalformedEnvelope")
  else (node, errorReply node h "UnknownMessageType")

/-- Modelled from the spec: the Request Router / Protocol State Machine.  A
request missing required header fields, or addressed to a different node,
cannot be replied to and is dropped (`none`); a request whose seal fails or
whose version is incompatible is rejected with a sealed `error` reply;
otherwise the request is dispatched by message type. -/
def handle (node : NodeState) (now : Rat) (m : SealedMsg) :
    Option (NodeState × SealedMsg) :=
  match parseHeader m.fields with
  | none => none
  | some h =>
    if h.recipient = pubOf node.private_key then
      if wireSealOk m h.sender then
        if h.version = node.version then
          some (handleChecked node now m.fields h)
        else some (node, errorReply node h "IncompatibleVersion")
      else some (node, errorReply node h "SealVerificationFailed")
    else none

/-- Transport wrapper for POST: a handled request always yields HTTP 200
with the sealed reply in the body; an undeliverable request fails with a
4xx-equivalent status and no reply body. -/
def httpPost (node : NodeState) (now : Rat) (m : SealedMsg) :
    NodeState × Nat × Option SealedMsg :=
  match handle node now m with
  | some (st, r) => (st, 200, some r)
  | none => (node, 400, none)

/-- State of one tracked lookup. -/
inductive LookupStatus : Type where
  | pending : LookupStatus
  | resolved : SignedItem → LookupStatus
  | failed : LookupStatus
deriving DecidableEq

/-- Modelled from the spec: the Lookup Tracker's records, keyed by content
hash. -/
abbrev Tracker : Type := List (String × LookupStatus)

/-- Lowercase hexadecimal digit test. -/
def isHexChar (c : Char) : Bool :=
  (48 ≤ c.toNat && c.toNat ≤ 57) || (97 ≤ c.toNat && c.toNat ≤ 102)

/-- Shape test for a sha512 hex digest: exactly 128 hex digits. -/
def isSha512Hex (s : String) : Bool :=
  s.length == 128 && s.data.all isHexChar

/-- Polling body for a pending lookup: exactly the two fields `status` and
`key`. -/
def pendingBody (key : String) : Dict :=
  [("status", Val.vstr "pending"), ("key", Val.vstr key)]

/-- Polling body for a resolved lookup: status and key plus the result
fields. -/
def resolvedBody (key : String) (i : SignedItem) : Dict :=
  [("status", Val.vstr "resolved"), ("key", Val.vstr key)] ++ itemValDict i

/-- Polling body for a failed lookup. -/
def failedBody (key : String) : Dict :=
  [("status", Val.vstr "error"), ("key", Val.vstr key)]

/-- Modelled from the spec: the GET polling surface.  A malformed (non
sha512-shaped) key is rejected with HTTP 400 before reaching the tracker; a
well-formed never-seen key starts an implicit lookup and reports `pending`;
a tracked key reports its current status, with HTTP 200 in every
well-formed case. -/
def handleGet (tr : Tracker) (path : String) : Tracker × Nat × Dict :=
  if isSha512Hex path then
    match lookupD tr path with
    | none => ((path, LookupStatus.pending) :: tr, 200, pendingBody path)
    | some LookupStatus.pending => (tr, 200, pendingBody path)
    | some (LookupStatus.resolved i) => (tr, 200, resolvedBody path i)
    | some LookupStatus.failed => (tr, 200, failedBody path)
  else (tr, 400, [])

/-- Shared envelope fields as each driver test builds them: uuid, recipient,
sender, reply_port 1908 and version, in source order. -/
def envFields (uuidStr recipientPub senderPub ver : String) : Dict :=
  [("uuid", Val.vstr uuidStr), ("recipient", Val.vstr recipientPub),
    ("sender", Val.vstr senderPub), ("reply_port", Val.vint 1908),
    ("version", Val.vstr ver)]

/-- Embedded from src/integration_tests/run.py, `test_send_store`: the signed
item's dict is extended with the envelope fields and sealed as a `store`
message. -/
def storeRequest (i : SignedItem)
    (uuidStr recipientPub senderPub ver private_key : String) : SealedMsg :=
  seal_message "store" (itemValDict i ++ envFields uuidStr recipientPub senderPub ver)
    private_key

/-- Embedded from src/integration_tests/run.py, the `findnode`/`findvalue`
tests: envelope fields plus a `key` field, sealed under the given message
type. -/
def lookupRequest (msg_type key uuidStr recipientPub senderPub ver
    private_key : String) : SealedMsg :=
  seal_message msg_type
    (envFields uuidStr recipientPub senderPub ver ++ [("key", Val.vstr key)])
    private_key

/-- Concrete single-node fixture used by witnesses: fresh key pair, port
8888, version string 0.6, empty store and routing table. -/
def nodeCx : NodeState := ⟨"NK", 8888, "0.6", [], []⟩

/-- Concrete findnode request produced by the embedded driver code, sealed
by a client key pair and addressed to the fixture node. -/
def msgCx : SealedMsg :=
  lookupRequest "findnode" "deadbeef" "u3" (pubOf "NK") (pubOf "CK") "0.6" "CK"

/-- Message field of a router result, used to state concrete runs without
binders. -/
def replyMessage (o : Option (NodeState × SealedMsg)) : Option Val :=
  match o with
  | some p => lookupD p.2.fields "message"
  | none => none

/-- Header of the concrete findnode request, as the router parses it. -/
def hdrCx : Header := ⟨"u3", pubOf "CK", pubOf "NK", 1908, "0.6", "findnode"⟩

/-- Reply the fixture node produces for the concrete findnode request. -/
def replyCx : SealedMsg :=
  mkReply nodeCx hdrCx "nodes" [("nodes", Val.vnodes [selfPeer nodeCx])]

/-- Signed item the driver builds for the concrete store exchange. -/
def itemW : SignedItem :=
  get_signed_item "item_name" (PVal.pstr "item value") (pubOf "CK") "CK" 5
    "0.6"

/-- Concrete store request for the fixture node. -/
def storeMsgW : SealedMsg :=
  storeRequest itemW "u1" (pubOf "NK") (pubOf "CK") "0.6" "CK"

/-- Fixture node after accepting the concrete store. -/
def node1W : NodeState :=
  withStore nodeCx
    (dictSet nodeCx.store (construct_key (pubOf "CK") "item_name") itemW)

/-- Concrete findvalue request for the stored key. -/
def findMsgW : SealedMsg :=
  lookupRequest "findvalue" (construct_key (pubOf "CK") "item_name") "u2"
    (pubOf "NK") (pubOf "CK") "0.6" "CK"

/-- Reply of the fixture node to the concrete store request. -/
def okReplyW : SealedMsg :=
  mkReply nodeCx ⟨"u1", pubOf "CK", pubOf "NK", 1908, "0.6", "store"⟩ "ok" []

/-- Reply of the fixture node to the concrete findvalue request. -/
def valueReplyW : SealedMsg :=
  mkReply node1W ⟨"u2", pubOf "CK", pubOf "NK", 1908, "0.6", "findvalue"⟩
    "value" (valueReplyExtra (construct_key (pubOf "CK") "item_name") itemW)

/-- Store attempt in which a rejected write leaves the store unchanged. -/
def putOrKeep (s : List (String × SignedItem)) (key : String)
    (it : SignedItem) : List (String × SignedItem) :=
  (storePut s key it).getD s

/-- Same-owner items with timestamps 1 and 2 used by the C4 witness. -/
def itemA : SignedItem :=
  get_signed_item "n" (PVal.pstr "a") (pubOf "CK") "CK" 1 "0.6"

/-- Later item of the same owner. -/
def itemB : SignedItem :=
  get_signed_item "n" (PVal.pstr "b") (pubOf "CK") "CK" 2 "0.6"

/-- Existing item owned by a different key pair. -/
def itemX : SignedItem :=
  get_signed_item "n" (PVal.pstr "x") (pubOf "KX") "KX" 1 "0.6"

/-- Intruding item from another owner targeting itemX's key. -/
def itemY : SignedItem :=
  get_signed_item "n" (PVal.pstr "y") (pubOf "KY") "KY" 2 "0.6"

/-- Stale re-store of the already stored fixture item, timestamp 3 < 5. -/
def itemOldW : SignedItem :=
  get_signed_item "item_name" (PVal.pstr "older") (pubOf "CK") "CK" 3 "0.6"

/-- Store request carrying the stale item. -/
def staleMsgW : SealedMsg :=
  storeRequest itemOldW "u9" (pubOf "NK") (pubOf "CK") "0.6" "CK"

/-- Error reply the fixture node produces for the stale store. -/
def staleReplyW : SealedMsg :=
  errorReply node1W ⟨"u9", pubOf "CK", pubOf "NK", 1908, "0.6", "store"⟩
    "StaleOrUnauthorizedWrite"

set_option maxRecDepth 16384

theorem keysD_nil {α : Type} : keysD ([] : List (String × α)) = [] := rfl

theorem keysD_cons {α : Type} (p : String × α) (ps : List (String × α)) :
    keysD (p :: ps) = p.1 :: keysD ps := rfl

theorem keysD_append {α : Type} (a b : List (String × α)) :
    keysD (a ++ b) = keysD a ++ keysD b := by
  simp [keysD]

theorem lookupD_eq_none_of_not_mem {α : Type} {d : List (String × α)}
    {k : String} (h : k ∉ keysD d) : lookupD d k = none := by
  induction d with
  | nil => rfl
  | cons p ps ih =>
    rw [keysD_cons] at h
    simp only [List.mem_cons, not_or] at h
    simp only [lookupD, if_neg h.1]
    exact ih h.2

theorem mem_keysD_of_lookupD_isSome {α : Type} {d : List (String × α)}
    {k : String} (h : (lookupD d k).isSome) : k ∈ keysD d := by
  by_contra hk
  rw [lookupD_eq_none_of_not_mem hk] at h
  simp at h

theorem lookupD_append {α : Type} (a b : List (String × α)) (k : String) :
    lookupD (a ++ b) k = ((lookupD a k).or (lookupD b k)) := by
  induction a with
  | nil => simp [lookupD]
  | cons p ps ih =>
    by_cases h : k = p.1
    · simp [lookupD, h]
    · simp [lookupD, h, ih]

theorem lookupD_setFieldD_other {α : Type} (d : List (String × α))
    {k k' : String} (v : α) (h : k' ≠ k) :
    lookupD (setFieldD d k v) k' = lookupD d k' := by
  induction d with
  | nil => rfl
  | cons p ps ih =>
    by_cases hp : p.1 = k
    · simp only [setFieldD, List.map_cons, if_pos hp, lookupD] at ih ⊢
      rw [if_neg h, if_neg (fun hc : k' = p.1 => h (hc.trans hp))]
      exact ih
    · simp only [setFieldD, List.map_cons, if_neg hp, lookupD] at ih ⊢
      by_cases hk : k' = p.1
      · rw [if_pos hk, if_pos hk]
      · rw [if_neg hk, if_neg hk]
        exact ih

theorem dictSet_of_not_mem {α : Type} {d : List (String × α)} {k : String}
    (v : α) (h : k ∉ keysD d) : dictSet d k v = d ++ [(k, v)] := by
  unfold dictSet
  rw [lookupD_eq_none_of_not_mem h]
  simp

theorem lookupD_dictSet_other {α : Type} (d : List (String × α))
    {k k' : String} (v : α) (h : k' ≠ k) :
    lookupD (dictSet d k v) k' = lookupD d k' := by
  unfold dictSet
  by_cases hs : (lookupD d k).isSome
  · rw [if_pos hs]
    exact lookupD_setFieldD_other d v h
  · rw [if_neg hs, lookupD_append]
    simp [lookupD, if_neg h]

theorem removeKeyD_eq_self {α : Type} {d : List (String × α)} {k : String}
    (h : k ∉ keysD d) : removeKeyD d k = d := by
  induction d with
  | nil => rfl
  | cons p ps ih =>
    rw [keysD_cons] at h
    simp only [List.mem_cons, not_or] at h
    simp only [removeKeyD, if_neg (fun hc : p.1 = k => h.1 hc.symm)]
    rw [ih h.2]

theorem removeKeyD_append {α : Type} (a b : List (String × α)) (k : String) :
    removeKeyD (a ++ b) k = removeKeyD a k ++ removeKeyD b k := by
  induction a with
  | nil => rfl
  | cons p ps ih =>
    by_cases h : p.1 = k
    · simp [removeKeyD, h, ih]
    · simp [removeKeyD, h, ih]

theorem lookupD_removeKeyD_ne {α : Type} (d : List (String × α))
    {k s : String} (h : k ≠ s) :
    lookupD (removeKeyD d s) k = lookupD d k := by
  induction d with
  | nil => rfl
  | cons p ps ih =>
    by_cases hp : p.1 = s
    · simp only [removeKeyD, if_pos hp, lookupD]
      rw [if_neg (fun hc => h (hc.trans hp))]
      exact ih
    · simp only [removeKeyD, if_neg hp, lookupD]
      by_cases hk : k = p.1
      · rw [if_pos hk, if_pos hk]
      · rw [if_neg hk, if_neg hk]
        exact ih

theorem keysD_removeKeyD_sublist {α : Type} (d : List (String × α))
    (k : String) : (keysD (removeKeyD d k)).Sublist (keysD d) := by
  induction d with
  | nil => simp [removeKeyD]
  | cons p ps ih =>
    by_cases h : p.1 = k
    · simp only [removeKeyD, if_pos h, keysD_cons]
      exact ih.trans (List.sublist_cons_self p.1 (keysD ps))
    · simp only [removeKeyD, if_neg h, keysD_cons]
      exact ih.cons₂ p.1

theorem keysNodup_removeKeyD {α : Type} {d : List (String × α)} {k : String}
    (h : keysNodup d) : keysNodup (removeKeyD d k) :=
  List.Nodup.sublist (keysD_removeKeyD_sublist d k) h

theorem keysD_insertSortedD_perm {α : Type} (p : String × α)
    (d : List (String × α)) :
    List.Perm (keysD (insertSortedD p d)) (p.1 :: keysD d) := by
  induction d with
  | nil => simp [insertSortedD, keysD]
  | cons q qs ih =>
    by_cases h : compare p.1 q.1 = Ordering.gt
    · simp only [insertSortedD, if_pos h, keysD_cons]
      exact (ih.cons q.1).trans (List.Perm.swap p.1 q.1 (keysD qs))
    · simp only [insertSortedD, if_neg h, keysD_cons]
      exact List.Perm.refl _

theorem keysD_sortD_perm {α : Type} (d : List (String × α)) :
    List.Perm (keysD (sortD d)) (keysD d) := by
  induction d with
  | nil => exact List.Perm.refl _
  | cons p ps ih =>
    simp only [sortD, keysD_cons]
    exact (keysD_insertSortedD_perm p (sortD ps)).trans (ih.cons p.1)

theorem lookupD_insertSortedD {α : Type} (p : String × α)
    (d : List (String × α)) (key : String) (hp : p.1 ∉ keysD d) :
    lookupD (insertSortedD p d) key = lookupD (p :: d) key := by
  induction d with
  | nil => rfl
  | cons q qs ih =>
    rw [keysD_cons] at hp
    simp only [List.mem_cons, not_or] at hp
    by_cases h : compare p.1 q.1 = Ordering.gt
    · simp only [insertSortedD, if_pos h, lookupD]
      by_cases hq : key = q.1
      · rw [if_pos hq, if_neg (fun hc : key = p.1 => hp.1 (hc.symm.trans hq)),
          if_pos hq]
      · rw [if_neg hq]
        rw [ih hp.2]
        simp only [lookupD]
        by_cases hk : key = p.1
        · rw [if_pos hk, if_pos hk]
        · rw [if_neg hk, if_neg hk, if_neg hq]
    · simp only [insertSortedD, if_neg h]

theorem lookupD_sortD {α : Type} (d : List (String × α)) (key : String)
    (h : keysNodup d) : lookupD (sortD d) key = lookupD d key := by
  induction d with
  | nil => rfl
  | cons p ps ih =>
    unfold keysNodup at h
    rw [keysD_cons, List.nodup_cons] at h
    have hp : p.1 ∉ keysD (sortD ps) :=
      fun hc => h.1 ((keysD_sortD_perm ps).mem_iff.mp hc)
    simp only [sortD]
    rw [lookupD_insertSortedD p (sortD ps) key hp]
    simp only [lookupD]
    by_cases hk : key = p.1
    · rw [if_pos hk, if_pos hk]
    · rw [if_neg hk, if_neg hk]
      exact ih h.2

theorem lookupD_encodeD {α : Type} (d : List (String × α)) {key : String}
    (hn : keysNodup d) (hk : key ≠ "seal") :
    lookupD (encodeD d) key = lookupD d key := by
  unfold encodeD
  rw [lookupD_sortD _ _ (keysNodup_removeKeyD hn)]
  exact lookupD_removeKeyD_ne d hk

theorem keysD_setFieldD {α : Type} (d : List (String × α)) (k : String)
    (v : α) : keysD (setFieldD d k v) = keysD d := by
  induction d with
  | nil => rfl
  | cons p ps ih =>
    by_cases h : p.1 = k
    · simp [setFieldD, keysD, h] at ih ⊢
      exact ih
    · simp [setFieldD, keysD, h] at ih ⊢
      exact ih

theorem lookupD_setFieldD_self {α : Type} {d : List (String × α)}
    {k : String} {w : α} (v : α) (h : lookupD d k = some w) :
    lookupD (setFieldD d k v) k = some v := by
  induction d with
  | nil => simp [lookupD] at h
  | cons p ps ih =>
    by_cases hk : k = p.1
    · simp [setFieldD, lookupD, hk]
    · simp only [lookupD, if_neg hk] at h
      simp only [setFieldD, List.map_cons]
      rw [if_neg (fun hc => hk hc.symm)]
      simp only [lookupD]
      rw [if_neg hk]
      exact ih h

theorem lookupD_dictSet_self {α : Type} (d : List (String × α)) (k : String)
    (v : α) : lookupD (dictSet d k v) k = some v := by
  unfold dictSet
  by_cases h : (lookupD d k).isSome
  · rw [if_pos h]
    obtain ⟨w, hw⟩ := Option.isSome_iff_exists.mp h
    exact lookupD_setFieldD_self v hw
  · rw [if_neg h, lookupD_append]
    simp only [Option.not_isSome_iff_eq_none] at h
    simp [h, lookupD]

theorem Val.toP_ofP (v : PVal) : Val.toP (Val.ofP v) = some v := by
  cases v <;> rfl

theorem verifyD_signD {α : Type} [DecidableEq α] (d : List (String × α))
    (private_key : String) :
    verifyD d (signD d private_key) (pubOf private_key) = true := by
  simp [verifyD, signD]

theorem verifyD_eq_false_of_enc_ne {α : Type} [DecidableEq α]
    {d : List (String × α)} {s : SigOf α} (public_key : String)
    (h : s.enc ≠ encodeD d) : verifyD d s public_key = false := by
  simp [verifyD, h]

theorem encodeD_ne_of_lookupD_ne {α : Type} {d d' : List (String × α)}
    {k : String} (hd : keysNodup d) (hd' : keysNodup d') (hk : k ≠ "seal")
    (h : lookupD d k ≠ lookupD d' k) : encodeD d ≠ encodeD d' := by
  intro he
  apply h
  rw [← lookupD_encodeD d hd hk, ← lookupD_encodeD d' hd' hk, he]

/-- C1: for every mapping of fields f (distinct keys, no pre-existing seal
field) and every matching key pair, verify(f, seal(f, priv), pub) returns
true; and mutating any single field of f after sealing (replacing the value
bound at an existing key with any different value, including an int-to-float
coercion) makes verify return false. -/
theorem seal_roundtrip_mutation (f : Dict) (private_key k : String)
    (v w : Val) (hnd : keysNodup f) (hseal : "seal" ∉ keysD f)
    (hk : lookupD f k = some w) (hvw : v ≠ w) :
    check_seal f (get_seal f private_key) (pubOf private_key) = true ∧
    check_seal (setFieldD f k v) (get_seal f private_key)
      (pubOf private_key) = false := by
  constructor
  · exact verifyD_signD f private_key
  · apply verifyD_eq_false_of_enc_ne
    have hkne : k ≠ "seal" := by
      intro hc
      exact hseal (hc ▸ mem_keysD_of_lookupD_isSome (by simp [hk]))
    have hnd' : keysNodup (setFieldD f k v) := by
      unfold keysNodup
      rw [keysD_setFieldD]
      exact hnd
    have hlook : lookupD (setFieldD f k v) k = some v :=
      lookupD_setFieldD_self v hk
    show encodeD f ≠ encodeD (setFieldD f k v)
    apply encodeD_ne_of_lookupD_ne hnd hnd' hkne
    rw [hk, hlook]
    intro hc
    exact hvw (Option.some.inj hc).symm

/-- Witness for C1 at a concrete two-field mapping, mutating the int field
`a` into a float of the same magnitude. -/
theorem seal_roundtrip_mutation_witness :
    keysNodup [("a", Val.vint 1), ("b", Val.vstr "x")] ∧
    "seal" ∉ keysD [("a", Val.vint 1), ("b", Val.vstr "x")] ∧
    lookupD [("a", Val.vint 1), ("b", Val.vstr "x")] "a" = some (Val.vint 1) ∧
    Val.vnum 1 ≠ Val.vint 1 ∧
    (check_seal [("a", Val.vint 1), ("b", Val.vstr "x")]
        (get_seal [("a", Val.vint 1), ("b", Val.vstr "x")] "K")
        (pubOf "K") = true ∧
      check_seal (setFieldD [("a", Val.vint 1), ("b", Val.vstr "x")] "a"
          (Val.vnum 1))
        (get_seal [("a", Val.vint 1), ("b", Val.vstr "x")] "K")
        (pubOf "K") = false) :=
  ⟨by decide, by decide, by decide, by decide,
    seal_roundtrip_mutation _ "K" "a" (Val.vnum 1) (Val.vint 1) (by decide)
      (by decide) (by decide) (by decide)⟩

theorem keysD_replyBase (node : NodeState) (h : Header) :
    keysD (replyBase node h)
      = ["uuid", "sender", "recipient", "reply_port", "version"] := rfl

theorem mkReply_fields (node : NodeState) (h : Header) (t : String)
    (extra : Dict) (hex : "message" ∉ keysD extra) :
    (mkReply node h t extra).fields
      = (replyBase node h ++ extra) ++ [("message", Val.vstr t)] := by
  unfold mkReply seal_message
  show dictSet (replyBase node h ++ extra) "message" (Val.vstr t) = _
  apply dictSet_of_not_mem
  rw [keysD_append]
  intro hmem
  rcases List.mem_append.mp hmem with hl | hr
  · rw [keysD_replyBase] at hl
    revert hl
    decide
  · exact hex hr

theorem wireSealOk_mkReply (node : NodeState) (h : Header) (t : String)
    (extra : Dict) (hex : "message" ∉ keysD extra) :
    wireSealOk (mkReply node h t extra) (pubOf node.private_key) = true := by
  unfold wireSealOk
  rw [mkReply_fields node h t extra hex]
  have hb : "message" ∉ keysD (replyBase node h ++ extra) := by
    rw [keysD_append]
    intro hmem
    rcases List.mem_append.mp hmem with hl | hr
    · rw [keysD_replyBase] at hl
      revert hl
      decide
    · exact hex hr
  rw [removeKeyD_append, removeKeyD_eq_self hb]
  show check_seal _ (get_seal (replyBase node h ++ extra) node.private_key) _ = true
  simp [removeKeyD, check_seal, get_seal]
  exact verifyD_signD _ _

theorem mkReply_lookup_uuid (node : NodeState) (h : Header) (t : String)
    (extra : Dict) :
    lookupD (mkReply node h t extra).fields "uuid" = some (Val.vstr h.uuid) := by
  unfold mkReply seal_message
  rw [lookupD_dictSet_other _ _ (by decide : ("uuid" : String) ≠ "message")]
  simp [lookupD]

theorem mkReply_lookup_sender (node : NodeState) (h : Header) (t : String)
    (extra : Dict) :
    lookupD (mkReply node h t extra).fields "sender"
      = some (Val.vstr (pubOf node.private_key)) := by
  unfold mkReply seal_message
  rw [lookupD_dictSet_other _ _ (by decide : ("sender" : String) ≠ "message")]
  simp [lookupD]

theorem mkReply_lookup_recipient (node : NodeState) (h : Header) (t : String)
    (extra : Dict) :
    lookupD (mkReply node h t extra).fields "recipient"
      = some (Val.vstr h.sender) := by
  unfold mkReply seal_message
  rw [lookupD_dictSet_other _ _ (by decide : ("recipient" : String) ≠ "message")]
  simp [lookupD]

theorem mkReply_lookup_reply_port (node : NodeState) (h : Header) (t : String)
    (extra : Dict) :
    lookupD (mkReply node h t extra).fields "reply_port"
      = some (Val.vint node.port) := by
  unfold mkReply seal_message
  rw [lookupD_dictSet_other _ _ (by decide : ("reply_port" : String) ≠ "message")]
  simp [lookupD]

theorem mkReply_lookup_version (node : NodeState) (h : Header) (t : String)
    (extra : Dict) :
    lookupD (mkReply node h t extra).fields "version"
      = some (Val.vstr node.version) := by
  unfold mkReply seal_message
  rw [lookupD_dictSet_other _ _ (by decide : ("version" : String) ≠ "message")]
  simp [lookupD]

theorem mkReply_lookup_message (node : NodeState) (h : Header) (t : String)
    (extra : Dict) :
    lookupD (mkReply node h t extra).fields "message" = some (Val.vstr t) := by
  unfold mkReply seal_message
  exact lookupD_dictSet_self _ _ _

theorem parseHeader_lookups {d : Dict} {h : Header}
    (hp : parseHeader d = some h) :
    lookupD d "uuid" = some (Val.vstr h.uuid) ∧
    lookupD d "sender" = some (Val.vstr h.sender) ∧
    lookupD d "recipient" = some (Val.vstr h.recipient) ∧
    lookupD d "reply_port" = some (Val.vint h.reply_port) ∧
    lookupD d "version" = some (Val.vstr h.version) ∧
    lookupD d "message" = some (Val.vstr h.msgType) := by
  unfold parseHeader at hp
  repeat' split at hp
  all_goals try (cases hp)
  all_goals simp_all

theorem handle_storeRequest (node : NodeState) (now ts : Rat)
    (uuidStr name : String) (value : PVal) (private_key : String) :
    handle node now
      (storeRequest
        (get_signed_item name value (pubOf private_key) private_key ts
          node.version)
        uuidStr (pubOf node.private_key) (pubOf private_key) node.version
        private_key)
    = some (storeStep node
        ⟨uuidStr, pubOf private_key, pubOf node.private_key, 1908,
          node.version, "store"⟩
        (get_signed_item name value (pubOf private_key) private_key ts
          node.version)) := by
  simp [storeRequest, seal_message, itemValDict, envFields, get_signed_item,
    dictSet, lookupD, handle, parseHeader, wireSealOk, check_seal, verifyD,
    get_seal, signD, removeKeyD, handleChecked, parseItem, Val.toP_ofP,
    validate_signed_item, itemFieldsPD]

theorem handle_findnodeRequest (node : NodeState) (now : Rat)
    (uuidStr key private_key : String) :
    handle node now
      (lookupRequest "findnode" key uuidStr (pubOf node.private_key)
        (pubOf private_key) node.version private_key)
    = some (node, mkReply node
        ⟨uuidStr, pubOf private_key, pubOf node.private_key, 1908,
          node.version, "findnode"⟩
        "nodes" [("nodes", Val.vnodes (nearest node key kBucketSize))]) := by
  simp [lookupRequest, seal_message, envFields, dictSet, lookupD, handle,
    parseHeader, wireSealOk, check_seal, verifyD, get_seal, signD,
    removeKeyD, handleChecked]

theorem handle_findvalueRequest (node : NodeState) (now : Rat)
    (uuidStr key private_key : String) :
    handle node now
      (lookupRequest "findvalue" key uuidStr (pubOf node.private_key)
        (pubOf private_key) node.version private_key)
    = some (findvalueStep node now
        ⟨uuidStr, pubOf private_key, pubOf node.private_key, 1908,
          node.version, "findvalue"⟩ key) := by
  simp [lookupRequest, seal_message, envFields, dictSet, lookupD, handle,
    parseHeader, wireSealOk, check_seal, verifyD, get_seal, signD,
    removeKeyD, handleChecked]

theorem handleChecked_snd_shape (node : NodeState) (now : Rat) (d : Dict)
    (h : Header) :
    ∃ t extra, (handleChecked node now d h).2 = mkReply node h t extra ∧
      "message" ∉ keysD extra := by
  unfold handleChecked storeStep findvalueStep errorReply
  repeat' split
  all_goals refine ⟨_, _, rfl, ?_⟩
  all_goals simp [keysD, valueReplyExtra]

theorem handle_reply_shape {node : NodeState} {now : Rat} {m : SealedMsg}
    {st : NodeState} {r : SealedMsg}
    (hh : handle node now m = some (st, r)) :
    ∃ h t extra, parseHeader m.fields = some h ∧
      h.recipient = pubOf node.private_key ∧
      r = mkReply node h t extra ∧ "message" ∉ keysD extra := by
  unfold handle at hh
  split at hh
  · cases hh
  · rename_i h hph
    refine ⟨h, ?_⟩
    split at hh
    · rename_i hrec
      split at hh
      · split at hh
        · obtain ⟨t, extra, hmk, hex⟩ :=
            handleChecked_snd_shape node now m.fields h
          have hpr : handleChecked node now m.fields h = (st, r) := by
            injection hh
          rw [hpr] at hmk
          exact ⟨t, extra, hph, hrec, hmk, hex⟩
        · have hpr : ((node, errorReply node h "IncompatibleVersion") :
              NodeState × SealedMsg) = (st, r) := by injection hh
          exact ⟨"error", _, hph, hrec, (congrArg Prod.snd hpr).symm,
            by decide⟩
      · have hpr : ((node, errorReply node h "SealVerificationFailed") :
            NodeState × SealedMsg) = (st, r) := by injection hh
        exact ⟨"error", _, hph, hrec, (congrArg Prod.snd hpr).symm,
          by decide⟩
    · cases hh

theorem lookupD_isSome_of_mem {α : Type} {d : List (String × α)} {k : String}
    (h : k ∈ keysD d) : (lookupD d k).isSome := by
  induction d with
  | nil => simp [keysD] at h
  | cons p ps ih =>
    by_cases hk : k = p.1
    · simp [lookupD, hk]
    · rw [keysD_cons] at h
      rcases List.mem_cons.mp h with hc | hm
      · exact absurd hc hk
      · simp only [lookupD, if_neg hk]
        exact ih hm

theorem mkReply_lookup_extra (node : NodeState) (h : Header) (t : String)
    (extra : Dict) {k : String} (hk : k ≠ "message")
    (hk2 : k ∉ keysD (replyBase node h)) :
    lookupD (mkReply node h t extra).fields k = lookupD extra k := by
  unfold mkReply seal_message
  rw [lookupD_dictSet_other _ _ hk, lookupD_append,
    lookupD_eq_none_of_not_mem hk2]
  simp

/-- C10 (amended): for every message type `t`, private key, and mapping `d`
with distinct keys containing neither a `seal` nor a `message` field,
`seal_message` returns `d` extended with exactly the two entries `seal` (the
wire form of the `msgSeal` component) and `message`, leaving every
pre-existing entry of `d` unchanged; the seal is computed from `d` before
the `message` key is added, so the `message` field is not covered by the
seal the driver produces. -/
theorem seal_message_frame (t : String) (d : Dict) (private_key : String)
    (hnd : keysNodup d) (hmsg : "message" ∉ keysD d) :
    (seal_message t d private_key).fields = d ++ [("message", Val.vstr t)] ∧
    keysD (seal_message t d private_key).fields = keysD d ++ ["message"] ∧
    (∀ k, k ∈ keysD d →
      lookupD (seal_message t d private_key).fields k = lookupD d k) ∧
    (seal_message t d private_key).msgSeal = get_seal d private_key ∧
    sealCoversAll (seal_message t d private_key) (pubOf private_key)
      = false := by
  have hfields : (seal_message t d private_key).fields
      = d ++ [("message", Val.vstr t)] := by
    unfold seal_message
    exact dictSet_of_not_mem _ hmsg
  refine ⟨hfields, ?_, ?_, rfl, ?_⟩
  · rw [hfields, keysD_append]
    rfl
  · intro k hkmem
    unfold seal_message
    exact lookupD_dictSet_other _ _ (fun hc => hmsg (hc ▸ hkmem))
  · unfold sealCoversAll check_seal
    rw [hfields]
    apply verifyD_eq_false_of_enc_ne
    show encodeD d ≠ encodeD (d ++ [("message", Val.vstr t)])
    have hnd2 : keysNodup (d ++ [("message", Val.vstr t)]) := by
      unfold keysNodup
      rw [keysD_append]
      rw [List.nodup_append]
      exact ⟨hnd, List.nodup_singleton _, by
        intro a ha hb
        simp only [keysD, List.map_cons, List.map_nil, List.mem_singleton]
          at hb
        exact hmsg (hb ▸ ha)⟩
    have hlk : lookupD d "message"
        ≠ lookupD (d ++ [("message", Val.vstr t)]) "message" := by
      rw [lookupD_eq_none_of_not_mem hmsg, lookupD_append,
        lookupD_eq_none_of_not_mem hmsg]
      simp [lookupD]
    exact encodeD_ne_of_lookupD_ne hnd hnd2 (by decide) hlk

/-- Witness for C10 at a concrete one-field mapping. -/
theorem seal_message_frame_witness :
    keysNodup [("a", Val.vint 7)] ∧
    "message" ∉ keysD [("a", Val.vint 7)] ∧
    ((seal_message "store" [("a", Val.vint 7)] "k").fields
        = [("a", Val.vint 7)] ++ [("message", Val.vstr "store")] ∧
      keysD (seal_message "store" [("a", Val.vint 7)] "k").fields
        = keysD [("a", Val.vint 7)] ++ ["message"] ∧
      (∀ k, k ∈ keysD [("a", Val.vint 7)] →
        lookupD (seal_message "store" [("a", Val.vint 7)] "k").fields k
          = lookupD [("a", Val.vint 7)] k) ∧
      (seal_message "store" [("a", Val.vint 7)] "k").msgSeal
        = get_seal [("a", Val.vint 7)] "k" ∧
      sealCoversAll (seal_message "store" [("a", Val.vint 7)] "k")
        (pubOf "k") = false) :=
  ⟨by decide, by decide,
    seal_message_frame "store" [("a", Val.vint 7)] "k" (by decide)
      (by decide)⟩

/-- C10 counterexample: on a mapping that already contains a `message`
field, `seal_message` overwrites the pre-existing entry in place instead of
adding two fresh keys, so the claim as stated over every mapping fails. -/
theorem seal_message_frame_cex :
    (seal_message "store" [("message", Val.vstr "x")] "k").fields
      = [("message", Val.vstr "store")] ∧
    lookupD (seal_message "store" [("message", Val.vstr "x")] "k").fields
      "message" ≠ some (Val.vstr "x") := by
  constructor
  · rfl
  · decide

/-- C2 counterexample: a concrete envelope built by the driver's
`seal_message` is accepted by the protocol (the node answers it with a
`nodes` reply), yet its seal does not verify over the canonical encoding of
all fields other than `seal` — the `message` field is not covered. -/
theorem envelope_seal_covers_message_cex :
    replyMessage (handle nodeCx 0 msgCx) = some (Val.vstr "nodes") ∧
    sealCoversAll msgCx (pubOf "CK") = false := by
  constructor
  · rfl
  · rfl

/-- C2 (amended): the seal of every reply the protocol produces — error
replies included, which are still sealed — verifies against the replying
node's own public key over the canonical encoding of every envelope field
except `seal` and `message`; and every handled request either carries a
seal verifying the same way against the sender's public key (it is
accepted, even when it is then answered with an `error` reply such as a
stale-store rejection or a version rejection) or is answered with exactly
the seal-rejection error reply (it is not accepted). -/
theorem envelope_seal_invariant (node : NodeState) (now : Rat)
    (m : SealedMsg) (st : NodeState) (r : SealedMsg) (h : Header)
    (hh : handle node now m = some (st, r))
    (hph : parseHeader m.fields = some h) :
    wireSealOk r (pubOf node.private_key) = true ∧
    (wireSealOk m h.sender = true ∨
      r = errorReply node h "SealVerificationFailed") := by
  obtain ⟨h2, t, extra, hph2, hrec, hr, hex⟩ := handle_reply_shape hh
  rw [hph] at hph2
  obtain rfl : h = h2 := by injection hph2
  constructor
  · rw [hr]
    exact wireSealOk_mkReply node h t extra hex
  · unfold handle at hh
    simp only [hph] at hh
    rw [if_pos hrec] at hh
    by_cases hws : wireSealOk m h.sender = true
    · exact Or.inl hws
    · rw [if_neg (fun hc => hws hc)] at hh
      have hpr : ((node, errorReply node h "SealVerificationFailed") :
          NodeState × SealedMsg) = (st, r) := by injection hh
      exact Or.inr (congrArg Prod.snd hpr).symm

/-- Witness for the amended C2 at the concrete fixture exchange. -/
theorem envelope_seal_invariant_witness :
    handle nodeCx 0 msgCx = some (nodeCx, replyCx) ∧
    parseHeader msgCx.fields = some hdrCx ∧
    (wireSealOk replyCx (pubOf nodeCx.private_key) = true ∧
      (wireSealOk msgCx hdrCx.sender = true ∨
        replyCx = errorReply nodeCx hdrCx "SealVerificationFailed")) :=
  ⟨by rfl, by rfl,
    envelope_seal_invariant nodeCx 0 msgCx nodeCx replyCx hdrCx (by rfl)
      (by rfl)⟩

/-- C5: every reply the router produces echoes the request's `uuid`, swaps
`sender` and `recipient` relative to the request, and carries the replying
node's own `reply_port` and `version` (not the request's values). -/
theorem reply_correlation (node : NodeState) (now : Rat) (m : SealedMsg)
    (st : NodeState) (r : SealedMsg)
    (hh : handle node now m = some (st, r)) :
    lookupD r.fields "uuid" = lookupD m.fields "uuid" ∧
    lookupD r.fields "sender" = lookupD m.fields "recipient" ∧
    lookupD r.fields "recipient" = lookupD m.fields "sender" ∧
    lookupD r.fields "reply_port" = some (Val.vint node.port) ∧
    lookupD r.fields "version" = some (Val.vstr node.version) := by
  obtain ⟨h, t, extra, hph, hrec, hr, hex⟩ := handle_reply_shape hh
  obtain ⟨hu, hs, hre, hp, hv, hm⟩ := parseHeader_lookups hph
  subst hr
  refine ⟨?_, ?_, ?_, ?_, ?_⟩
  · rw [mkReply_lookup_uuid, hu]
  · rw [mkReply_lookup_sender, hre, hrec]
  · rw [mkReply_lookup_recipient, hs]
  · exact mkReply_lookup_reply_port node h t extra
  · exact mkReply_lookup_version node h t extra

/-- Witness for C5 at the concrete fixture exchange. -/
theorem reply_correlation_witness :
    handle nodeCx 0 msgCx = some (nodeCx, replyCx) ∧
    (lookupD replyCx.fields "uuid" = lookupD msgCx.fields "uuid" ∧
      lookupD replyCx.fields "sender" = lookupD msgCx.fields "recipient" ∧
      lookupD replyCx.fields "recipient" = lookupD msgCx.fields "sender" ∧
      lookupD replyCx.fields "reply_port" = some (Val.vint nodeCx.port) ∧
      lookupD replyCx.fields "version" = some (Val.vstr nodeCx.version)) :=
  ⟨by rfl, reply_correlation nodeCx 0 msgCx nodeCx replyCx (by rfl)⟩

/-- C6: in a single-node topology (empty routing table), every `findnode`
request and every `findvalue` request for a key absent from the local store
is answered with `message=nodes` whose `nodes` list contains exactly one
entry — the answering node itself. -/
theorem single_node_nodes_reply (node : NodeState) (now : Rat)
    (u1 u2 key1 key2 private_key : String)
    (hrouting : node.routing = [])
    (hmiss : storeGet now node.store key2 = none) :
    handle node now
        (lookupRequest "findnode" key1 u1 (pubOf node.private_key)
          (pubOf private_key) node.version private_key)
      = some (node, mkReply node
          ⟨u1, pubOf private_key, pubOf node.private_key, 1908, node.version,
            "findnode"⟩
          "nodes" [("nodes", Val.vnodes [selfPeer node])]) ∧
    handle node now
        (lookupRequest "findvalue" key2 u2 (pubOf node.private_key)
          (pubOf private_key) node.version private_key)
      = some (node, mkReply node
          ⟨u2, pubOf private_key, pubOf node.private_key, 1908, node.version,
            "findvalue"⟩
          "nodes" [("nodes", Val.vnodes [selfPeer node])]) := by
  have hn1 : nearest node key1 kBucketSize = [selfPeer node] := by
    simp [nearest, hrouting]
  have hn2 : nearest node key2 kBucketSize = [selfPeer node] := by
    simp [nearest, hrouting]
  constructor
  · rw [handle_findnodeRequest, hn1]
  · rw [handle_findvalueRequest]
    unfold findvalueStep
    rw [hmiss, hn2]

/-- Witness for C6 at the concrete fixture node with empty store and
routing table. -/
theorem single_node_nodes_reply_witness :
    nodeCx.routing = [] ∧
    storeGet 0 nodeCx.store "beef" = none ∧
    (handle nodeCx 0
        (lookupRequest "findnode" "deadbeef" "u3" (pubOf nodeCx.private_key)
          (pubOf "CK") nodeCx.version "CK")
      = some (nodeCx, mkReply nodeCx
          ⟨"u3", pubOf "CK", pubOf nodeCx.private_key, 1908, nodeCx.version,
            "findnode"⟩
          "nodes" [("nodes", Val.vnodes [selfPeer nodeCx])]) ∧
    handle nodeCx 0
        (lookupRequest "findvalue" "beef" "u4" (pubOf nodeCx.private_key)
          (pubOf "CK") nodeCx.version "CK")
      = some (nodeCx, mkReply nodeCx
          ⟨"u4", pubOf "CK", pubOf nodeCx.private_key, 1908, nodeCx.version,
            "findvalue"⟩
          "nodes" [("nodes", Val.vnodes [selfPeer nodeCx])])) :=
  ⟨rfl, rfl,
    single_node_nodes_reply nodeCx 0 "u3" "u4" "deadbeef" "beef" "CK" rfl rfl⟩

theorem store_then_findvalue_flow (node : NodeState) (now1 now2 ts : Rat)
    (u1 u2 name : String) (value : PVal) (private_key : String)
    (node1 st2 : NodeState) (r1 r2 : SealedMsg)
    (hfree : lookupD node.store (construct_key (pubOf private_key) name)
      = none)
    (h1 : handle node now1
        (storeRequest
          (get_signed_item name value (pubOf private_key) private_key ts
            node.version)
          u1 (pubOf node.private_key) (pubOf private_key) node.version
          private_key)
      = some (node1, r1))
    (h2 : handle node1 now2
        (lookupRequest "findvalue" (construct_key (pubOf private_key) name)
          u2 (pubOf node1.private_key) (pubOf private_key) node1.version
          private_key)
      = some (st2, r2)) :
    node1 = withStore node (dictSet node.store
        (construct_key (pubOf private_key) name)
        (get_signed_item name value (pubOf private_key) private_key ts
          node.version)) ∧
    r1 = mkReply node
        ⟨u1, pubOf private_key, pubOf node.private_key, 1908, node.version,
          "store"⟩ "ok" [] ∧
    st2 = node1 ∧
    r2 = mkReply node1
        ⟨u2, pubOf private_key, pubOf node1.private_key, 1908, node1.version,
          "findvalue"⟩ "value"
        (valueReplyExtra (construct_key (pubOf private_key) name)
          (get_signed_item name value (pubOf private_key) private_key ts
            node.version)) := by
  rw [handle_storeRequest] at h1
  have hput : storePut node.store (construct_key (pubOf private_key) name)
      (get_signed_item name value (pubOf private_key) private_key ts
        node.version)
      = some (dictSet node.store (construct_key (pubOf private_key) name)
          (get_signed_item name value (pubOf private_key) private_key ts
            node.version)) := by
    unfold storePut
    rw [hfree]
  unfold storeStep at h1
  have hargs : construct_key
      (get_signed_item name value (pubOf private_key) private_key ts
        node.version).public_key
      (get_signed_item name value (pubOf private_key) private_key ts
        node.version).name
      = construct_key (pubOf private_key) name := rfl
  rw [hargs, hput] at h1
  have hpr1 : ((withStore node (dictSet node.store
        (construct_key (pubOf private_key) name)
        (get_signed_item name value (pubOf private_key) private_key ts
          node.version)),
      mkReply node
        ⟨u1, pubOf private_key, pubOf node.private_key, 1908, node.version,
          "store"⟩ "ok" []) : NodeState × SealedMsg) = (node1, r1) := by
    injection h1
  obtain ⟨hnode1a, hr1a⟩ := Prod.mk.inj hpr1
  have hnode1 := hnode1a.symm
  have hr1 := hr1a.symm
  rw [handle_findvalueRequest] at h2
  have hget : storeGet now2 node1.store
      (construct_key (pubOf private_key) name)
      = some (get_signed_item name value (pubOf private_key) private_key ts
          node.version) := by
    rw [hnode1]
    unfold storeGet withStore
    rw [lookupD_dictSet_self]
    simp [get_signed_item]
  unfold findvalueStep at h2
  rw [hget] at h2
  have hpr2 : ((node1, mkReply node1
      ⟨u2, pubOf private_key, pubOf node1.private_key, 1908, node1.version,
        "findvalue"⟩ "value"
      (valueReplyExtra (construct_key (pubOf private_key) name)
        (get_signed_item name value (pubOf private_key) private_key ts
          node.version))) : NodeState × SealedMsg) = (st2, r2) := by
    injection h2
  obtain ⟨hst2a, hr2a⟩ := Prod.mk.inj hpr2
  exact ⟨hnode1, hr1, hst2a.symm, hr2a.symm⟩

/-- C3: after a store of an item signed by a client key pair is accepted, a
findvalue for construct_key(client public key, name) is answered
`message=value` with the stored value, the signature produced at store time,
`expires = 0.0`, and a seal verifying against the answering node's own
public key. -/
theorem store_findvalue_roundtrip (node : NodeState) (now1 now2 ts : Rat)
    (u1 u2 name : String) (value : PVal) (private_key : String)
    (node1 st2 : NodeState) (r1 r2 : SealedMsg)
    (hfree : lookupD node.store (construct_key (pubOf private_key) name)
      = none)
    (h1 : handle node now1
        (storeRequest
          (get_signed_item name value (pubOf private_key) private_key ts
            node.version)
          u1 (pubOf node.private_key) (pubOf private_key) node.version
          private_key)
      = some (node1, r1))
    (h2 : handle node1 now2
        (lookupRequest "findvalue" (construct_key (pubOf private_key) name)
          u2 (pubOf node1.private_key) (pubOf private_key) node1.version
          private_key)
      = some (st2, r2)) :
    lookupD r1.fields "message" = some (Val.vstr "ok") ∧
    lookupD r2.fields "message" = some (Val.vstr "value") ∧
    lookupD r2.fields "value" = some (Val.ofP value) ∧
    lookupD r2.fields "signature"
      = some (Val.vsig
          (get_signed_item name value (pubOf private_key) private_key ts
            node.version).signature) ∧
    lookupD r2.fields "expires" = some (Val.vnum 0) ∧
    wireSealOk r2 (pubOf node1.private_key) = true := by
  obtain ⟨hnode1, hr1, hst2, hr2⟩ := store_then_findvalue_flow node now1 now2
    ts u1 u2 name value private_key node1 st2 r1 r2 hfree h1 h2
  refine ⟨?_, ?_, ?_, ?_, ?_, ?_⟩
  · rw [hr1]
    exact mkReply_lookup_message node _ "ok" []
  · rw [hr2]
    exact mkReply_lookup_message node1 _ "value" _
  · rw [hr2, mkReply_lookup_extra node1 _ "value" _ (by decide) (by
      rw [keysD_replyBase]
      decide)]
    simp [valueReplyExtra, lookupD, get_signed_item]
  · rw [hr2, mkReply_lookup_extra node1 _ "value" _ (by decide) (by
      rw [keysD_replyBase]
      decide)]
    simp [valueReplyExtra, lookupD, get_signed_item]
  · rw [hr2, mkReply_lookup_extra node1 _ "value" _ (by decide) (by
      rw [keysD_replyBase]
      decide)]
    simp [valueReplyExtra, lookupD, get_signed_item]
  · rw [hr2]
    apply wireSealOk_mkReply
    simp [valueReplyExtra, keysD]

/-- Witness for C3 at the concrete store-then-findvalue exchange. -/
theorem store_findvalue_roundtrip_witness :
    lookupD nodeCx.store (construct_key (pubOf "CK") "item_name") = none ∧
    handle nodeCx 6 storeMsgW = some (node1W, okReplyW) ∧
    handle node1W 7 findMsgW = some (node1W, valueReplyW) ∧
    (lookupD okReplyW.fields "message" = some (Val.vstr "ok") ∧
      lookupD valueReplyW.fields "message" = some (Val.vstr "value") ∧
      lookupD valueReplyW.fields "value"
        = some (Val.ofP (PVal.pstr "item value")) ∧
      lookupD valueReplyW.fields "signature"
        = some (Val.vsig itemW.signature) ∧
      lookupD valueReplyW.fields "expires" = some (Val.vnum 0) ∧
      wireSealOk valueReplyW (pubOf node1W.private_key) = true) :=
  ⟨by rfl, by rfl, by rfl,
    store_findvalue_roundtrip nodeCx 6 7 5 "u1" "u2" "item_name"
      (PVal.pstr "item value") "CK" node1W node1W okReplyW valueReplyW
      (by rfl) (by rfl) (by rfl)⟩

/-- C9: construct_key is a deterministic function of its two arguments, so
the key a client computes from (public key, name) equals the `key` field the
node returns in a `value` reply for the same pair. -/
theorem construct_key_deterministic (p1 n1 p2 n2 : String) (hp : p1 = p2)
    (hn : n1 = n2) (node : NodeState) (now1 now2 ts : Rat)
    (u1 u2 name : String) (value : PVal) (private_key : String)
    (node1 st2 : NodeState) (r1 r2 : SealedMsg)
    (hfree : lookupD node.store (construct_key (pubOf private_key) name)
      = none)
    (h1 : handle node now1
        (storeRequest
          (get_signed_item name value (pubOf private_key) private_key ts
            node.version)
          u1 (pubOf node.private_key) (pubOf private_key) node.version
          private_key)
      = some (node1, r1))
    (h2 : handle node1 now2
        (lookupRequest "findvalue" (construct_key (pubOf private_key) name)
          u2 (pubOf node1.private_key) (pubOf private_key) node1.version
          private_key)
      = some (st2, r2)) :
    construct_key p1 n1 = construct_key p2 n2 ∧
    lookupD r2.fields "key"
      = some (Val.vstr (construct_key (pubOf private_key) name)) := by
  constructor
  · rw [hp, hn]
  · obtain ⟨hnode1, hr1, hst2, hr2⟩ := store_then_findvalue_flow node now1
      now2 ts u1 u2 name value private_key node1 st2 r1 r2 hfree h1 h2
    rw [hr2, mkReply_lookup_extra node1 _ "value" _ (by decide) (by
      rw [keysD_replyBase]
      decide)]
    simp [valueReplyExtra, lookupD]

/-- Witness for C9 at the concrete exchange. -/
theorem construct_key_deterministic_witness :
    "p" = "p" ∧ "n" = "n" ∧
    lookupD nodeCx.store (construct_key (pubOf "CK") "item_name") = none ∧
    handle nodeCx 6 storeMsgW = some (node1W, okReplyW) ∧
    handle node1W 7 findMsgW = some (node1W, valueReplyW) ∧
    (construct_key "p" "n" = construct_key "p" "n" ∧
      lookupD valueReplyW.fields "key"
        = some (Val.vstr (construct_key (pubOf "CK") "item_name"))) :=
  ⟨rfl, rfl, by rfl, by rfl, by rfl,
    construct_key_deterministic "p" "n" "p" "n" rfl rfl nodeCx 6 7 5 "u1"
      "u2" "item_name" (PVal.pstr "item value") "CK" node1W node1W okReplyW
      valueReplyW (by rfl) (by rfl) (by rfl)⟩

/-- C4: for two items stored at the same free key by the same owner, the one
with the greater timestamp is retained regardless of arrival order; an item
whose public key differs from the existing item's is always rejected; and a
store request whose write is rejected is answered with an `error` reply and
never an `ok` reply, with the store unchanged. -/
theorem store_monotonic_and_error_reply
    (s : List (String × SignedItem)) (key : String) (i j : SignedItem)
    (old newi : SignedItem) (s2 : List (String × SignedItem)) (key2 : String)
    (node node1 : NodeState) (now1 ts : Rat) (u1 name : String)
    (value : PVal) (private_key : String) (r1 : SealedMsg)
    (hfree : lookupD s key = none)
    (hsame : i.public_key = j.public_key)
    (hij : i.timestamp < j.timestamp)
    (hold : lookupD s2 key2 = some old)
    (hpk : old.public_key ≠ newi.public_key)
    (hrej : storePut node.store
        (construct_key (pubOf private_key) name)
        (get_signed_item name value (pubOf private_key) private_key ts
          node.version)
      = none)
    (h1 : handle node now1
        (storeRequest
          (get_signed_item name value (pubOf private_key) private_key ts
            node.version)
          u1 (pubOf node.private_key) (pubOf private_key) node.version
          private_key)
      = some (node1, r1)) :
    (lookupD (putOrKeep (putOrKeep s key i) key j) key = some j ∧
      lookupD (putOrKeep (putOrKeep s key j) key i) key = some j) ∧
    storePut s2 key2 newi = none ∧
    (node1 = node ∧
      lookupD r1.fields "message" = some (Val.vstr "error") ∧
      lookupD r1.fields "message" ≠ some (Val.vstr "ok")) := by
  refine ⟨⟨?_, ?_⟩, ?_, ?_⟩
  · have hput1 : putOrKeep s key i = dictSet s key i := by
      unfold putOrKeep storePut
      rw [hfree]
      rfl
    rw [hput1]
    have hput2 : storePut (dictSet s key i) key j
        = some (dictSet (dictSet s key i) key j) := by
      unfold storePut
      simp only [lookupD_dictSet_self]
      rw [if_pos ⟨hsame, hij⟩]
    unfold putOrKeep
    rw [hput2]
    exact lookupD_dictSet_self _ _ _
  · have hput1 : putOrKeep s key j = dictSet s key j := by
      unfold putOrKeep storePut
      rw [hfree]
      rfl
    rw [hput1]
    have hput2 : storePut (dictSet s key j) key i = none := by
      unfold storePut
      simp only [lookupD_dictSet_self]
      rw [if_neg (fun hc => absurd hc.2 (lt_asymm hij))]
    unfold putOrKeep
    rw [hput2]
    exact lookupD_dictSet_self _ _ _
  · unfold storePut
    simp only [hold]
    rw [if_neg (fun hc => hpk hc.1)]
  · rw [handle_storeRequest] at h1
    unfold storeStep at h1
    have hargs : construct_key
        (get_signed_item name value (pubOf private_key) private_key ts
          node.version).public_key
        (get_signed_item name value (pubOf private_key) private_key ts
          node.version).name
        = construct_key (pubOf private_key) name := rfl
    simp only [hargs, hrej] at h1
    have hpr : ((node, errorReply node
        ⟨u1, pubOf private_key, pubOf node.private_key, 1908, node.version,
          "store"⟩ "StaleOrUnauthorizedWrite") : NodeState × SealedMsg)
        = (node1, r1) := by
      injection h1
    obtain ⟨hn, hr⟩ := Prod.mk.inj hpr
    have hmsg : lookupD r1.fields "message" = some (Val.vstr "error") := by
      rw [← hr]
      exact mkReply_lookup_message node _ "error" _
    refine ⟨hn.symm, hmsg, ?_⟩
    rw [hmsg]
    decide

/-- Witness for C4 at concrete stores: both arrival orders keep the later
item, a foreign-key write is rejected, and the stale store is answered with
an error reply by the fixture node. -/
theorem store_monotonic_and_error_reply_witness :
    lookupD ([] : List (String × SignedItem)) "k" = none ∧
    itemA.public_key = itemB.public_key ∧
    itemA.timestamp < itemB.timestamp ∧
    lookupD [("k2", itemX)] "k2" = some itemX ∧
    itemX.public_key ≠ itemY.public_key ∧
    storePut node1W.store (construct_key (pubOf "CK") "item_name") itemOldW
      = none ∧
    handle node1W 8 staleMsgW = some (node1W, staleReplyW) ∧
    ((lookupD (putOrKeep (putOrKeep [] "k" itemA) "k" itemB) "k"
          = some itemB ∧
        lookupD (putOrKeep (putOrKeep [] "k" itemB) "k" itemA) "k"
          = some itemB) ∧
      storePut [("k2", itemX)] "k2" itemY = none ∧
      (node1W = node1W ∧
        lookupD staleReplyW.fields "message" = some (Val.vstr "error") ∧
        lookupD staleReplyW.fields "message" ≠ some (Val.vstr "ok"))) :=
  ⟨by rfl, by rfl, by decide, by rfl, by decide, by rfl, by rfl,
    store_monotonic_and_error_reply [] "k" itemA itemB itemX itemY
      [("k2", itemX)] "k2" node1W node1W 8 3 "u9" "item_name"
      (PVal.pstr "older") "CK" staleReplyW (by rfl) (by rfl) (by decide)
      (by rfl) (by decide) (by rfl) (by rfl)⟩

/-- C7: a GET for a well-formed, never-seen sha512-shaped key returns HTTP
200 with a body of exactly the two fields `status = pending` and
`key = <key>`, and a second GET for the same key before resolution returns
the same pending response. -/
theorem polling_idempotent (tr : Tracker) (key : String)
    (hshape : isSha512Hex key = true) (hnew : lookupD tr key = none) :
    handleGet tr key
      = ((key, LookupStatus.pending) :: tr, 200, pendingBody key) ∧
    (pendingBody key).length = 2 ∧
    lookupD (pendingBody key) "status" = some (Val.vstr "pending") ∧
    lookupD (pendingBody key) "key" = some (Val.vstr key) ∧
    handleGet ((key, LookupStatus.pending) :: tr) key
      = ((key, LookupStatus.pending) :: tr, 200, pendingBody key) := by
  refine ⟨?_, rfl, ?_, ?_, ?_⟩
  · unfold handleGet
    rw [if_pos hshape]
    simp only [hnew]
  · simp [pendingBody, lookupD]
  · simp [pendingBody, lookupD]
  · unfold handleGet
    rw [if_pos hshape]
    simp [lookupD]

/-- Witness for C7 at a fresh tracker and the 128-character key aaa…a. -/
theorem polling_idempotent_witness :
    isSha512Hex (String.mk (List.replicate 128 'a')) = true ∧
    lookupD ([] : Tracker) (String.mk (List.replicate 128 'a')) = none ∧
    (handleGet [] (String.mk (List.replicate 128 'a'))
        = ([(String.mk (List.replicate 128 'a'), LookupStatus.pending)], 200,
            pendingBody (String.mk (List.replicate 128 'a'))) ∧
      (pendingBody (String.mk (List.replicate 128 'a'))).length = 2 ∧
      lookupD (pendingBody (String.mk (List.replicate 128 'a'))) "status"
        = some (Val.vstr "pending") ∧
      lookupD (pendingBody (String.mk (List.replicate 128 'a'))) "key"
        = some (Val.vstr (String.mk (List.replicate 128 'a'))) ∧
      handleGet [(String.mk (List.replicate 128 'a'), LookupStatus.pending)]
          (String.mk (List.replicate 128 'a'))
        = ([(String.mk (List.replicate 128 'a'), LookupStatus.pending)], 200,
            pendingBody (String.mk (List.replicate 128 'a')))) :=
  ⟨by decide, by rfl,
    polling_idempotent [] (String.mk (List.replicate 128 'a')) (by decide)
      (by rfl)⟩

/-- C8: a GET whose path is not sha512-shaped is rejected with HTTP 400
before reaching the tracker (the tracker is unchanged and no body is
produced), and this is the only non-200 among well-formed exchanges: every
sha512-shaped GET returns 200, and every POST whose envelope parses and is
addressed to the node returns 200, protocol-level failures being signalled
inside the body. -/
theorem malformed_key_rejected_400 (tr : Tracker) (path : String)
    (node : NodeState) (now : Rat) (m : SealedMsg) (h : Header)
    (hbad : isSha512Hex path = false)
    (hph : parseHeader m.fields = some h)
    (hrec : h.recipient = pubOf node.private_key) :
    handleGet tr path = (tr, 400, []) ∧
    (∀ (tr2 : Tracker) (path2 : String), isSha512Hex path2 = true →
      (handleGet tr2 path2).2.1 = 200) ∧
    (httpPost node now m).2.1 = 200 := by
  refine ⟨?_, ?_, ?_⟩
  · unfold handleGet
    rw [hbad]
    rfl
  · intro tr2 path2 hshape
    unfold handleGet
    rw [if_pos hshape]
    rcases hlk : lookupD tr2 path2 with _ | st
    · rfl
    · cases st <;> rfl
  · unfold httpPost handle
    simp only [hph]
    rw [if_pos hrec]
    split
    · rfl
    · rename_i heq
      exfalso
      split at heq
      · split at heq
        · cases heq
        · cases heq
      · cases heq

/-- Witness for C8 at the path foo, the concrete fixture exchange, and a
sample of well-formed GETs. -/
theorem malformed_key_rejected_400_witness :
    isSha512Hex "foo" = false ∧
    parseHeader msgCx.fields = some hdrCx ∧
    hdrCx.recipient = pubOf nodeCx.private_key ∧
    (handleGet [] "foo" = ([], 400, []) ∧
      (∀ (tr2 : Tracker) (path2 : String), isSha512Hex path2 = true →
        (handleGet tr2 path2).2.1 = 200) ∧
      (httpPost nodeCx 0 msgCx).2.1 = 200) :=
  ⟨by decide, by rfl, by rfl,
    malformed_key_rejected_400 [] "foo" nodeCx 0 msgCx hdrCx (by decide)
      (by rfl) (by rfl)⟩
